import Mathlib

/-!
Verification development for the MorningButler dashboard
(`static/dashboard.js`).

Shallow-embedding conventions:
* JS timestamps are `Int` epoch milliseconds; the result of `new Date(s)` on a
  present (truthy) string is a `Timestamp`, either `valid ms` or `invalid`
  (an Invalid Date object, which is still truthy in JS).
* Local-time day truncation (`setHours(0,0,0,0)`) is modelled with a fixed
  UTC offset `tz` (DST transitions are not modelled).
* JS strings whose length and splitting behaviour matter are `List Char`
  (UTF-16 code units; none of the relevant text needs surrogate pairs);
  other strings are Lean `String`.
* JS objects used as string-keyed maps are association lists in insertion
  order; `localStorage` slots are `StoredVal`; a thrown JS exception is
  `Except.error ()`.
* Numeric submission scores are modelled as `Int`; only presence and
  zero/nonzero (JS truthiness) matter to the properties considered.
-/

namespace Dashboard

/-- A JS object with string keys and string values (the persisted seen
ledger and the `localStorage` key space), as an association list in
insertion order. -/
abbrev Ledger := List (String × String)

/-- `obj[k] = v` on a JS object: overwrite in place if the key exists,
otherwise append the new key at the end (JS property insertion order). -/
def objSet : Ledger → String → String → Ledger
  | [], k, v => [(k, v)]
  | (k', v') :: rest, k, v =>
    if k' = k then (k, v) :: rest else (k', v') :: objSet rest k v

/-- Property lookup `obj[k]` on a JS object. -/
def objGet : Ledger → String → Option String
  | [], _ => none
  | (k', v') :: rest, k => if k' = k then some v' else objGet rest k

/-- Content of the `localStorage` slot `butler_seen_announcements`:
absent (`getItem` returns `null`), the stored empty string (falsy in JS),
a non-empty string that is valid JSON for a string-to-string object, or a
non-empty string that `JSON.parse` rejects. -/
inductive StoredVal
  | absent
  | emptyStr
  | json (l : Ledger)
  | corrupt
deriving DecidableEq

/-- `getSeenAnnouncements` (dashboard.js lines 54-57):
`stored ? JSON.parse(stored) : {}`.  A `null` or empty stored value is
falsy and yields the empty object; a non-empty stored value is passed to
`JSON.parse`, which throws (`Except.error ()`) on corrupt text. -/
def getSeenAnnouncements : StoredVal → Except Unit Ledger
  | .absent => .ok []
  | .emptyStr => .ok []
  | .json l => .ok l
  | .corrupt => .error ()

/-- `markAnnouncementSeen` (dashboard.js lines 59-63): read the ledger,
set `seen[id] = postedAt`, and write the JSON serialization back; the
resulting slot is returned.  A parse failure propagates. -/
def markAnnouncementSeen (slot : StoredVal) (id postedAt : String) :
    Except Unit StoredVal :=
  (getSeenAnnouncements slot).map (fun seen => .json (objSet seen id postedAt))

/-- `isAnnouncementSeen` (dashboard.js lines 65-68): `id in seen`. -/
def isAnnouncementSeen (slot : StoredVal) (id : String) : Except Unit Bool :=
  (getSeenAnnouncements slot).map (fun seen => (objGet seen id).isSome)

/-- Membership of the character class `[:\-–—]` used by the split in
`shortenAssignmentName`. -/
def isSep (c : Char) : Bool :=
  c = ':' || c = '-' || c = '–' || c = '—'

/-- `String.prototype.trim`: strip whitespace from both ends. -/
def jsTrim (s : List Char) : List Char :=
  ((s.dropWhile Char.isWhitespace).reverse.dropWhile Char.isWhitespace).reverse

/-- `fullName.split(/[:\-–—]/)`: the list of (possibly empty) fragments
between separator characters; always non-empty. -/
def splitOnSeps : List Char → List (List Char)
  | [] => [[]]
  | c :: rest =>
    if isSep c then [] :: splitOnSeps rest
    else
      match splitOnSeps rest with
      | [] => [[c]]
      | h :: t => (c :: h) :: t

/-- `shortenAssignmentName` (dashboard.js lines 73-81). -/
def shortenAssignmentName (fullName : List Char) (maxLen : Nat := 45) :
    List Char :=
  if fullName.length ≤ maxLen then fullName
  else
    let parts := splitOnSeps fullName
    if 1 < parts.length then
      let lastPart := jsTrim (parts.getLastD [])
      if 10 < lastPart.length ∧ lastPart.length ≤ maxLen then lastPart
      else fullName.take maxLen ++ ['…']
    else fullName.take maxLen ++ ['…']

/-- Outcome of `new Date(s)` for a truthy (non-empty) timestamp string:
a valid instant in epoch milliseconds, or an Invalid Date. -/
inductive Timestamp
  | invalid
  | valid (ms : Int)
deriving DecidableEq

/-- Raw Canvas submission record. -/
structure Submission where
  workflow_state : String
  grade : Option String
  score : Option Int
  preview_url : Option String
deriving DecidableEq

/-- Raw Canvas assignment record.  `due_at` is `none` when the raw field is
absent, `null`, or the empty string (all falsy in `a.due_at ? … : null`),
and otherwise carries the parse outcome of the non-empty string. -/
structure RawAssignment where
  course : String
  name : List Char
  due_at : Option Timestamp
  submission : Option Submission
deriving DecidableEq

/-- The `due` display string: either the literal `'No due date'` or the
`toLocaleString` rendering of the (possibly invalid) parsed date.  Keeping
the rendered case symbolic avoids modelling locale formatting; an invalid
date renders as the text `Invalid Date`, which is distinct from
`No due date`. -/
inductive DueStr
  | noDueDate
  | localeString (t : Timestamp)
deriving DecidableEq

/-- The urgency tag; the source uses `null` for the none case. -/
inductive Urgency
  | none
  | today
  | week
deriving DecidableEq

/-- Normalized assignment presentation record. -/
structure AssignmentView where
  course : String
  name : List Char
  shortName : List Char
  due : DueStr
  dueDate : Option Timestamp
  status : String
  url : String
  isUrgent : Bool
  hasDueDate : Bool
  urgency : Urgency
deriving DecidableEq

/-- Milliseconds per day. -/
def dayMs : Int := 86400000

/-- `d.setHours(0,0,0,0)` under a fixed UTC offset `tz`: truncate the
instant to its local midnight. -/
def startOfDay (tz t : Int) : Int :=
  (t - tz) / dayMs * dayMs + tz

/-- `grade ? 'Graded: ' + grade : 'Graded'` when the JS value
`submission.grade || submission.score` fell through to the score:
a zero (or absent) score is falsy.  `toString` models JS number-to-string
coercion on integral values. -/
def gradedStatusOfScore : Option Int → String
  | some n => if n = 0 then "Graded" else "Graded: " ++ toString n
  | none => "Graded"

/-- `const grade = submission.grade || submission.score` followed by
`grade ? 'Graded: ' + grade : 'Graded'` (dashboard.js lines 207-208),
with JS truthiness: an empty-string grade falls through to the score. -/
def gradedStatus (grade : Option String) (score : Option Int) : String :=
  match grade with
  | some g => if g = "" then gradedStatusOfScore score else "Graded: " ++ g
  | none => gradedStatusOfScore score

/-- Status derivation (dashboard.js lines 204-216). -/
def statusStr : Option Submission → String
  | none => "Not submitted"
  | some s =>
    if s.workflow_state = "graded" then gradedStatus s.grade s.score
    else if s.workflow_state = "submitted" then "Submitted"
    else "Not submitted"

/-- Per-assignment body of `formatAssignmentData` (dashboard.js lines
181-244).  `nowMs` is the current instant; the source truncates its `now`
variable to local midnight (lines 182-183) before any comparison, so
`today` below is that midnight and the later `dueDate >= now` comparison
on line 230 is against the midnight value.  Comparisons against an
Invalid Date are `NaN`-poisoned and thus false. -/
def formatAssignmentItem (tz nowMs : Int) (a : RawAssignment) :
    AssignmentView :=
  let today := startOfDay tz nowMs
  let oneWeekOut := today + 8 * dayMs - 1
  let tomorrowStart := today + dayMs
  let dueStr :=
    match a.due_at with
    | Option.none => DueStr.noDueDate
    | some t => DueStr.localeString t
  let urgency :=
    match a.due_at with
    | some (Timestamp.valid ms) =>
      if startOfDay tz ms = today then Urgency.today
      else if tomorrowStart ≤ ms ∧ ms ≤ oneWeekOut then Urgency.week
      else Urgency.none
    | _ => Urgency.none
  let urgent :=
    match a.due_at with
    | some (Timestamp.valid ms) => decide (today ≤ ms ∧ ms ≤ oneWeekOut)
    | _ => false
  { course := a.course
    name := a.name
    shortName := shortenAssignmentName a.name 45
    due := dueStr
    dueDate := a.due_at
    status := statusStr a.submission
    url := (a.submission.bind Submission.preview_url).getD ""
    isUrgent := urgent
    hasDueDate := a.due_at.isSome
    urgency := urgency }

/-- `formatAssignmentData` (dashboard.js lines 181-245): map the
normalizer over the raw assignment feed. -/
def formatAssignmentData (tz nowMs : Int) (assignments : List RawAssignment) :
    List AssignmentView :=
  assignments.map (formatAssignmentItem tz nowMs)

/-- A JS number used as a sort key: a finite millisecond value or
`Number.POSITIVE_INFINITY` / `Number.NEGATIVE_INFINITY`. -/
inductive ExtInt
  | negInf
  | fin (n : Int)
  | posInf
deriving DecidableEq

/-- Numeric order on sort-key values.  Two equal infinities subtract to
`NaN` in the source comparator, which the sort treats as equal; that
coincides with this order's reflexivity. -/
def ExtInt.le : ExtInt → ExtInt → Bool
  | .negInf, _ => true
  | .fin _, .negInf => false
  | .fin a, .fin b => decide (a ≤ b)
  | .fin _, .posInf => true
  | .posInf, .posInf => true
  | .posInf, _ => false

/-- `dateValue` (dashboard.js lines 282-286): missing or unparseable due
dates map to +Infinity for ascending and -Infinity for descending sorts;
re-parsing the stored `dueDate` yields the same outcome as the original
parse of `due_at`. -/
def dateValue (a : AssignmentView) (asc : Bool) : ExtInt :=
  let worst := if asc then ExtInt.posInf else ExtInt.negInf
  if a.hasDueDate then
    match a.dueDate with
    | Option.none => worst
    | some Timestamp.invalid => worst
    | some (Timestamp.valid ms) => ExtInt.fin ms
  else worst

/-- The four values of the sort selector. -/
inductive SortKey
  | dueAsc
  | dueDesc
  | course
  | status
deriving DecidableEq

/-- `sortAssignments` (dashboard.js lines 280-298).  `[...]sort(cmp)` with
a consistent comparator is a stable sort (ES2019); it is embedded as a
stable merge sort ordered by the comparator.  `localeCompare` is modelled
as code-point lexicographic string order. -/
def sortAssignments (assignments : List AssignmentView) (sortBy : SortKey) :
    List AssignmentView :=
  match sortBy with
  | .dueDesc =>
    assignments.mergeSort (fun a b => ExtInt.le (dateValue b false) (dateValue a false))
  | .course =>
    assignments.mergeSort (fun a b => decide (a.course ≤ b.course))
  | .status =>
    assignments.mergeSort (fun a b => decide (a.status ≤ b.status))
  | .dueAsc =>
    assignments.mergeSort (fun a b => ExtInt.le (dateValue a true) (dateValue b true))

/-- `Math.ceil(msUntil / 86400000)` on integral millisecond counts: the
exact ceiling of the division. -/
def daysUntil (expiryMs nowMs : Int) : Int :=
  -(-(expiryMs - nowMs) / dayMs)

/-- JS truthiness test `!localStorage.getItem(key)`: both a missing key and
a stored empty string are falsy. -/
def keyUnset (store : Ledger) (key : String) : Bool :=
  match objGet store key with
  | Option.none => true
  | some s => decide (s = "")

/-- Credential-expiry branch of `sendNotifications` (dashboard.js lines
648-665), for a pass in which notification permission is granted.
`parse` models `new Date(expiration + 'T00:00:00')`: the local-midnight
instant of the configured expiration date, or `none` when unparseable.
An absent expiration is modelled as the empty string (both are falsy in
the `if (expiration)` guard).  Returns whether the notification fired,
together with the updated dedup store. -/
def sendTokenExpiryNotification (parse : String → Option Int)
    (expiration : String) (nowMs : Int) (store : Ledger) : Bool × Ledger :=
  if expiration = "" then (false, store)
  else
    match parse expiration with
    | Option.none => (false, store)
    | some expiryMs =>
      let d := daysUntil expiryMs nowMs
      let notifyKey := "canvasTokenExpiryNotified:" ++ expiration
      if 0 ≤ d ∧ d ≤ 7 ∧ keyUnset store notifyKey = true then
        (true, objSet store notifyKey "true")
      else (false, store)

/-- A sequence of granted-permission notification passes: each pass
supplies the configured expiration date and the current instant, and the
dedup store is threaded through.  Returns, per pass, the expiration
together with whether the credential-expiry notification fired on that
pass. -/
def runNotificationPasses (parse : String → Option Int) :
    List (String × Int) → Ledger → List (String × Bool)
  | [], _ => []
  | (e, now) :: rest, store =>
    let r := sendTokenExpiryNotification parse e now store
    (e, r.1) :: runNotificationPasses parse rest r.2

theorem objGet_objSet_self (l : Ledger) (k v : String) :
    objGet (objSet l k v) k = some v := by
  induction l with
  | nil => simp [objSet, objGet]
  | cons hd tl ih =>
    obtain ⟨k', v'⟩ := hd
    by_cases h : k' = k
    · simp [objSet, objGet, h]
    · simp [objSet, objGet, h, ih]

theorem objGet_objSet_ne (l : Ledger) (k k' v : String) (h : k' ≠ k) :
    objGet (objSet l k v) k' = objGet l k' := by
  induction l with
  | nil =>
    have hne : ¬(k = k') := fun hc => h hc.symm
    simp [objSet, objGet, hne]
  | cons hd tl ih =>
    obtain ⟨k₀, v₀⟩ := hd
    by_cases h0 : k₀ = k
    · subst h0
      have hne : ¬(k₀ = k') := fun hc => h hc.symm
      simp [objSet, objGet, hne]
    · simp only [objSet, if_neg h0, objGet]
      split
      · rfl
      · exact ih

/-- C2: counterexample — `getSeenAnnouncements` on a corrupted (non-empty,
unparseable) stored ledger does not return a mapping: the uncaught
`JSON.parse` exception propagates, so the claim that it never fails is
false on this input. -/
theorem getSeenAnnouncements_corrupt_throws :
    getSeenAnnouncements StoredVal.corrupt = Except.error () := rfl

/-- C2 (amended): `getSeenAnnouncements` returns the empty mapping when the
slot is absent or holds the empty string and the parsed mapping for valid
JSON, but it propagates a `JSON.parse` exception on corrupted non-empty
text, and consequently `markAnnouncementSeen` and `isAnnouncementSeen`
also fail on a corrupted stored ledger. -/
theorem getSeenAnnouncements_spec :
    getSeenAnnouncements StoredVal.absent = Except.ok [] ∧
    getSeenAnnouncements StoredVal.emptyStr = Except.ok [] ∧
    (∀ l : Ledger, getSeenAnnouncements (StoredVal.json l) = Except.ok l) ∧
    getSeenAnnouncements StoredVal.corrupt = Except.error () ∧
    (∀ id postedAt : String,
      markAnnouncementSeen StoredVal.corrupt id postedAt = Except.error () ∧
      isAnnouncementSeen StoredVal.corrupt id = Except.error ()) := by
  refine ⟨rfl, rfl, fun l => rfl, rfl, fun id postedAt => ⟨rfl, rfl⟩⟩

/-- C10: on any readable prior ledger state (absent, empty, or valid JSON),
`markAnnouncementSeen id postedAt` writes back exactly the prior mapping
with the entry for `id` set to `postedAt`: the entry for `id` is now
`postedAt`, every entry under a different key is unchanged, and
`isAnnouncementSeen id` on the resulting slot returns `true`. -/
theorem markAnnouncementSeen_frame (slot : StoredVal) (l : Ledger)
    (id postedAt : String) (h : getSeenAnnouncements slot = Except.ok l) :
    markAnnouncementSeen slot id postedAt =
      Except.ok (StoredVal.json (objSet l id postedAt)) ∧
    objGet (objSet l id postedAt) id = some postedAt ∧
    (∀ k, k ≠ id → objGet (objSet l id postedAt) k = objGet l k) ∧
    isAnnouncementSeen (StoredVal.json (objSet l id postedAt)) id =
      Except.ok true := by
  refine ⟨?_, objGet_objSet_self l id postedAt, ?_, ?_⟩
  · simp [markAnnouncementSeen, h, Except.map]
  · intro k hk
    exact objGet_objSet_ne l id k postedAt hk
  · simp [isAnnouncementSeen, getSeenAnnouncements, Except.map,
      objGet_objSet_self l id postedAt]

/-- Witness for C10 at a concrete slot, id, and timestamp. -/
theorem markAnnouncementSeen_frame_witness :
    markAnnouncementSeen (StoredVal.json [("a", "x")]) "b" "p" =
      Except.ok (StoredVal.json [("a", "x"), ("b", "p")]) ∧
    objGet [("a", "x"), ("b", "p")] "a" = objGet [("a", "x")] "a" ∧
    isAnnouncementSeen (StoredVal.json [("a", "x"), ("b", "p")]) "b" =
      Except.ok true := by
  have h := markAnnouncementSeen_frame (StoredVal.json [("a", "x")])
    [("a", "x")] "b" "p" rfl
  obtain ⟨h1, _, h3, h4⟩ := h
  have hset : objSet [("a", "x")] "b" "p" = [("a", "x"), ("b", "p")] := by
    simp [objSet]
  rw [hset] at h1 h3 h4
  exact ⟨h1, h3 "a" (by decide), h4⟩

theorem startOfDay_le (tz t : Int) : startOfDay tz t ≤ t := by
  unfold startOfDay dayMs
  omega

theorem lt_startOfDay_add_day (tz t : Int) : t < startOfDay tz t + dayMs := by
  unfold startOfDay dayMs
  omega

/-- A raw assignment whose `due_at` is present but unparseable. -/
def invalidDueAssignment : RawAssignment :=
  { course := "CS 101"
    name := ['H', 'W']
    due_at := some Timestamp.invalid
    submission := none }

/-- C1: counterexample — a present but unparseable `due_at` string yields a
truthy Invalid Date object, so the normalizer reports `hasDueDate = true`
and renders the invalid date rather than the literal `No due date`,
contradicting the claimed treatment as "no due date" and the claimed
equivalence of `hasDueDate` with successful parsing. -/
theorem formatAssignment_invalid_due_cex :
    (formatAssignmentItem 0 0 invalidDueAssignment).hasDueDate = true ∧
    (formatAssignmentItem 0 0 invalidDueAssignment).due ≠ DueStr.noDueDate := by
  constructor
  · rfl
  · intro hc
    simp [formatAssignmentItem, invalidDueAssignment] at hc

/-- C1 (amended): a present but unparseable `due_at` yields
`hasDueDate = true` and `due` equal to the locale rendering of the Invalid
Date (not `No due date`), while `urgency = none` and `isUrgent = false`
still hold; in general `hasDueDate` is true exactly when `due_at` is
present and truthy, not when it parses to a valid instant. -/
theorem formatAssignment_invalid_due (tz nowMs : Int) (a : RawAssignment)
    (h : a.due_at = some Timestamp.invalid) :
    (formatAssignmentItem tz nowMs a).hasDueDate = true ∧
    (formatAssignmentItem tz nowMs a).due =
      DueStr.localeString Timestamp.invalid ∧
    (formatAssignmentItem tz nowMs a).urgency = Urgency.none ∧
    (formatAssignmentItem tz nowMs a).isUrgent = false ∧
    (∀ b : RawAssignment,
      (formatAssignmentItem tz nowMs b).hasDueDate = b.due_at.isSome) := by
  refine ⟨?_, ?_, ?_, ?_, ?_⟩
  · simp [formatAssignmentItem, h]
  · simp [formatAssignmentItem, h]
  · simp [formatAssignmentItem, h]
  · simp [formatAssignmentItem, h]
  · intro b
    rfl

/-- Witness for C1 (amended) at a concrete unparseable-date assignment. -/
theorem formatAssignment_invalid_due_witness :
    (formatAssignmentItem 3 5 invalidDueAssignment).due =
      DueStr.localeString Timestamp.invalid ∧
    (formatAssignmentItem 3 5 invalidDueAssignment).urgency = Urgency.none ∧
    (formatAssignmentItem 3 5 invalidDueAssignment).hasDueDate =
      invalidDueAssignment.due_at.isSome := by
  have h := formatAssignment_invalid_due 3 5 invalidDueAssignment rfl
  exact ⟨h.2.1, h.2.2.1, h.2.2.2.2 invalidDueAssignment⟩

/-- A raw assignment due at 01:00 on the epoch day. -/
def earlierTodayAssignment : RawAssignment :=
  { course := "C"
    name := ['A']
    due_at := some (Timestamp.valid 3600000)
    submission := none }

/-- C3: counterexample — with `now` at 10:00 of the epoch day (UTC offset
0), an assignment due at 01:00 the same day lies strictly before the
current instant, yet `isUrgent` is true, because the source compares the
due instant against local midnight, not against `now`. -/
theorem isUrgent_before_now_cex :
    (formatAssignmentItem 0 36000000 earlierTodayAssignment).isUrgent = true ∧
    (3600000 : Int) < 36000000 := by
  constructor
  · rfl
  · decide

/-- C3 (amended): for a valid due instant, `isUrgent` is true exactly when
`startOfDay(now) ≤ due ≤ startOfDay(now) + 7 days at 23:59:59.999`; the
lower bound is the midnight of the current day, so an instant due earlier
today but strictly before `now` is still urgent. -/
theorem isUrgent_iff (tz nowMs ms : Int) (a : RawAssignment)
    (h : a.due_at = some (Timestamp.valid ms)) :
    (formatAssignmentItem tz nowMs a).isUrgent = true ↔
      (startOfDay tz nowMs ≤ ms ∧
       ms ≤ startOfDay tz nowMs + 8 * dayMs - 1) := by
  simp [formatAssignmentItem, h]

/-- Witness for C3 (amended): the 01:00 due instant of the counterexample
satisfies the midnight-based window at `now` = 10:00. -/
theorem isUrgent_iff_witness :
    (formatAssignmentItem 0 36000000 earlierTodayAssignment).isUrgent = true :=
  (isUrgent_iff 0 36000000 3600000 earlierTodayAssignment rfl).mpr (by decide)

/-- A raw assignment due exactly at tomorrow's local midnight relative to
the epoch day. -/
def tomorrowStartAssignment : RawAssignment :=
  { course := "C"
    name := ['A']
    due_at := some (Timestamp.valid 86400000)
    submission := none }

/-- C4: counterexample — a due instant equal to tomorrow's start is
classified `week` by the source (`dueDate >= tomorrowStart` is inclusive),
whereas the claimed interval `(tomorrow's start, week end]` excludes it
and would force `none`. -/
theorem classifyUrgency_tomorrowStart_cex :
    (formatAssignmentItem 0 0 tomorrowStartAssignment).urgency = Urgency.week ∧
    (86400000 : Int) = startOfDay 0 0 + dayMs := by
  constructor
  · rfl
  · decide

/-- C4 (amended): for a valid due instant `d`, the urgency classification
assigns exactly one of today, week, none: `today` iff `d`'s calendar day
equals now's day, `week` iff `d` lies in the closed interval
`[tomorrow's start, week end]` — inclusive of both boundaries — and
`none` otherwise. -/
theorem classifyUrgency_partition (tz nowMs ms : Int) (a : RawAssignment)
    (h : a.due_at = some (Timestamp.valid ms)) :
    ((formatAssignmentItem tz nowMs a).urgency = Urgency.today ↔
      startOfDay tz ms = startOfDay tz nowMs) ∧
    ((formatAssignmentItem tz nowMs a).urgency = Urgency.week ↔
      (startOfDay tz nowMs + dayMs ≤ ms ∧
       ms ≤ startOfDay tz nowMs + 8 * dayMs - 1)) ∧
    ((formatAssignmentItem tz nowMs a).urgency = Urgency.none ↔
      (startOfDay tz ms ≠ startOfDay tz nowMs ∧
       ¬(startOfDay tz nowMs + dayMs ≤ ms ∧
         ms ≤ startOfDay tz nowMs + 8 * dayMs - 1))) := by
  have hself := startOfDay_le tz ms
  have hnext := lt_startOfDay_add_day tz ms
  by_cases hT : startOfDay tz ms = startOfDay tz nowMs
  · have hnw : ¬(startOfDay tz nowMs + dayMs ≤ ms ∧
        ms ≤ startOfDay tz nowMs + 8 * dayMs - 1) := by
      rw [← hT]
      omega
    simp [formatAssignmentItem, h, hT, hnw]
  · by_cases hW : startOfDay tz nowMs + dayMs ≤ ms ∧
        ms ≤ startOfDay tz nowMs + 8 * dayMs - 1
    · simp [formatAssignmentItem, h, hT, hW]
    · simp [formatAssignmentItem, h, hT, hW]

/-- Witness for C4 (amended): the tomorrow-midnight due instant is
classified `week`. -/
theorem classifyUrgency_partition_witness :
    (formatAssignmentItem 0 0 tomorrowStartAssignment).urgency =
      Urgency.week :=
  ((classifyUrgency_partition 0 0 86400000 tomorrowStartAssignment
      rfl).2.1).mpr (by decide)

/-- C5: counterexample — a 46-character name with no separators takes the
truncation branch, which returns the first 45 characters plus an ellipsis:
46 characters, exceeding the claimed bound of 45. -/
theorem shortenAssignmentName_length_cex :
    ¬(shortenAssignmentName (List.replicate 46 'x') 45).length ≤ 45 := by
  decide

/-- C5 (amended): at the default `maxLen` of 45 the derived short name has
length at most 46: the unchanged and last-split-part branches return at
most 45 characters, but the truncation branch returns the first 45
characters plus one appended ellipsis, i.e. exactly 46. -/
theorem shortenAssignmentName_length (s : List Char) :
    (shortenAssignmentName s 45).length ≤ 46 := by
  simp only [shortenAssignmentName]
  split_ifs with h1 h2 h3
  · omega
  · omega
  · simp only [List.length_append, List.length_take, List.length_cons,
      List.length_nil]
    omega
  · simp only [List.length_append, List.length_take, List.length_cons,
      List.length_nil]
    omega

/-- C6: counterexample — for `'a:' ++ 50 × 'b'`, one application truncates
to `'a:' ++ 43 × 'b' ++ '…'` (46 characters), and a second application
splits that at the `':'` and returns its 44-character last part, so double
application differs from single application. -/
theorem shortenAssignmentName_not_idempotent :
    shortenAssignmentName
        (shortenAssignmentName ('a' :: ':' :: List.replicate 50 'b') 45) 45 ≠
      shortenAssignmentName ('a' :: ':' :: List.replicate 50 'b') 45 := by
  decide

/-- C6 (amended): `shortenAssignmentName` at the default `maxLen` of 45 is
idempotent on every input whose first-application result has at most 45
characters (the unchanged and last-split-part branches); only the
truncation branch, whose 46-character result re-enters shortening, can
differ on reapplication. -/
theorem shortenAssignmentName_idempotent_of_short (s : List Char)
    (h : (shortenAssignmentName s 45).length ≤ 45) :
    shortenAssignmentName (shortenAssignmentName s 45) 45 =
      shortenAssignmentName s 45 := by
  conv_lhs => rw [shortenAssignmentName]
  rw [if_pos h]

/-- Witness for C6 (amended) on a short concrete name. -/
theorem shortenAssignmentName_idempotent_witness :
    (shortenAssignmentName ['h', 'i'] 45).length ≤ 45 ∧
    shortenAssignmentName (shortenAssignmentName ['h', 'i'] 45) 45 =
      shortenAssignmentName ['h', 'i'] 45 :=
  ⟨by decide, shortenAssignmentName_idempotent_of_short ['h', 'i'] (by decide)⟩

/-- A graded raw assignment with no grade text and a present score of 0. -/
def zeroScoreAssignment : RawAssignment :=
  { course := "C"
    name := ['A']
    due_at := none
    submission := some
      { workflow_state := "graded"
        grade := none
        score := some 0
        preview_url := none } }

/-- C9: counterexample — a graded submission with a present score of 0
yields the bare `Graded` label, because `grade || score` and the following
ternary both treat 0 as falsy; the claim requires `Graded: 0` whenever the
score is present. -/
theorem statusStr_zero_score_cex :
    (formatAssignmentItem 0 0 zeroScoreAssignment).status = "Graded" ∧
    (formatAssignmentItem 0 0 zeroScoreAssignment).status ≠
      "Graded: " ++ toString (0 : Int) := by
  constructor
  · rfl
  · decide

/-- C9 (amended): for a graded submission the label carries the grade when
the grade is a non-empty string, otherwise the score when the score is
present and non-zero, and is the bare `Graded` when the grade is absent or
empty and the score is absent or zero (JS truthiness, so a present score
of 0 is dropped); `submitted` maps to `Submitted`, and any other workflow
state or an absent submission maps to `Not submitted`. -/
theorem statusStr_spec (s : Submission) :
    statusStr none = "Not submitted" ∧
    (s.workflow_state = "graded" →
      ((∀ g, s.grade = some g → g ≠ "" →
          statusStr (some s) = "Graded: " ++ g) ∧
       ((s.grade = none ∨ s.grade = some "") →
          ∀ n, s.score = some n → n ≠ 0 →
            statusStr (some s) = "Graded: " ++ toString n) ∧
       ((s.grade = none ∨ s.grade = some "") →
          (s.score = none ∨ s.score = some 0) →
            statusStr (some s) = "Graded"))) ∧
    (s.workflow_state = "submitted" → statusStr (some s) = "Submitted") ∧
    (s.workflow_state ≠ "graded" → s.workflow_state ≠ "submitted" →
      statusStr (some s) = "Not submitted") := by
  refine ⟨rfl, ?_, ?_, ?_⟩
  · intro hg
    refine ⟨?_, ?_, ?_⟩
    · intro g hgr hne
      simp [statusStr, hg, gradedStatus, hgr, hne]
    · intro hgr n hsc hne
      rcases hgr with hgr | hgr <;>
        simp [statusStr, hg, gradedStatus, hgr, gradedStatusOfScore, hsc, hne]
    · intro hgr hsc
      rcases hgr with hgr | hgr <;> rcases hsc with hsc | hsc <;>
        simp [statusStr, hg, gradedStatus, hgr, gradedStatusOfScore, hsc]
  · intro hs
    by_cases hg : s.workflow_state = "graded"
    · rw [hg] at hs
      simp at hs
    · simp [statusStr, hg, hs]
  · intro hg hs
    simp [statusStr, hg, hs]

/-- Witness for C9 (amended) on a graded submission with grade text `A-`. -/
theorem statusStr_spec_witness :
    statusStr (some
      { workflow_state := "graded"
        grade := some "A-"
        score := some 0
        preview_url := none }) = "Graded: " ++ "A-" :=
  ((statusStr_spec
      { workflow_state := "graded"
        grade := some "A-"
        score := some 0
        preview_url := none }).2.1 rfl).1 "A-" rfl (by decide)

theorem stringAppendCancel {p a b : String} (h : p ++ a = p ++ b) : a = b := by
  apply String.ext
  have hd := congrArg String.data h
  rw [String.data_append, String.data_append] at hd
  exact List.append_cancel_left hd

theorem sendTokenExpiry_fired_iff (parse : String → Option Int) (e : String)
    (expiryMs : Int) (he : e ≠ "") (hp : parse e = some expiryMs)
    (nowMs : Int) (store : Ledger) :
    (sendTokenExpiryNotification parse e nowMs store).1 = true ↔
      (0 ≤ daysUntil expiryMs nowMs ∧ daysUntil expiryMs nowMs ≤ 7 ∧
       keyUnset store ("canvasTokenExpiryNotified:" ++ e) = true) := by
  simp only [sendTokenExpiryNotification, if_neg he, hp]
  split_ifs with hcond
  · simp [hcond]
  · simp [hcond]

theorem sendTokenExpiry_cases (parse : String → Option Int) (e : String)
    (nowMs : Int) (store : Ledger) :
    ((sendTokenExpiryNotification parse e nowMs store).1 = true ∧
      (sendTokenExpiryNotification parse e nowMs store).2 =
        objSet store ("canvasTokenExpiryNotified:" ++ e) "true" ∧
      keyUnset store ("canvasTokenExpiryNotified:" ++ e) = true) ∨
    ((sendTokenExpiryNotification parse e nowMs store).1 = false ∧
      (sendTokenExpiryNotification parse e nowMs store).2 = store) := by
  by_cases he : e = ""
  · right
    simp [sendTokenExpiryNotification, he]
  · rcases hp : parse e with _ | expiryMs
    · right
      simp [sendTokenExpiryNotification, he, hp]
    · by_cases hc : 0 ≤ daysUntil expiryMs nowMs ∧
          daysUntil expiryMs nowMs ≤ 7 ∧
          keyUnset store ("canvasTokenExpiryNotified:" ++ e) = true
      · left
        refine ⟨?_, ?_, hc.2.2⟩ <;>
          simp [sendTokenExpiryNotification, he, hp, hc]
      · right
        constructor <;> simp [sendTokenExpiryNotification, he, hp, hc]

theorem runPasses_no_fire_of_set (parse : String → Option Int) (e : String)
    (passes : List (String × Int)) :
    ∀ store : Ledger,
      objGet store ("canvasTokenExpiryNotified:" ++ e) = some "true" →
      ((runNotificationPasses parse passes store).filter
          (fun r => decide (r.1 = e) && r.2)).length = 0 := by
  induction passes with
  | nil =>
    intro store _
    simp [runNotificationPasses]
  | cons p rest ih =>
    obtain ⟨e', now⟩ := p
    intro store h
    rcases sendTokenExpiry_cases parse e' now store with ⟨h1, h2, h3⟩ | ⟨h1, h2⟩
    · have hne : ¬(e' = e) := by
        intro hc
        subst hc
        rw [keyUnset, h] at h3
        simp at h3
      have hpres : objGet ((sendTokenExpiryNotification parse e' now store).2)
          ("canvasTokenExpiryNotified:" ++ e) = some "true" := by
        rw [h2, objGet_objSet_ne]
        · exact h
        · intro hc
          exact hne (stringAppendCancel hc).symm
      have hrest := ih ((sendTokenExpiryNotification parse e' now store).2) hpres
      simp only [runNotificationPasses, List.filter_cons]
      simp [hne, hrest]
    · have hrest := ih store h
      simp only [runNotificationPasses, List.filter_cons, h1, h2]
      simp [hrest]

theorem runPasses_count_le_one (parse : String → Option Int) (e : String)
    (passes : List (String × Int)) :
    ∀ store : Ledger,
      ((runNotificationPasses parse passes store).filter
          (fun r => decide (r.1 = e) && r.2)).length ≤ 1 := by
  induction passes with
  | nil =>
    intro store
    simp [runNotificationPasses]
  | cons p rest ih =>
    obtain ⟨e', now⟩ := p
    intro store
    rcases sendTokenExpiry_cases parse e' now store with ⟨h1, h2, h3⟩ | ⟨h1, h2⟩
    · by_cases hne : e' = e
      · subst hne
        have hset : objGet ((sendTokenExpiryNotification parse e' now store).2)
            ("canvasTokenExpiryNotified:" ++ e') = some "true" := by
          rw [h2]
          exact objGet_objSet_self store _ "true"
        have hrest := runPasses_no_fire_of_set parse e' rest
          ((sendTokenExpiryNotification parse e' now store).2) hset
        simp only [runNotificationPasses, List.filter_cons]
        simp [h1, hrest]
      · simp only [runNotificationPasses, List.filter_cons]
        simp [hne]
        exact ih _
    · simp only [runNotificationPasses, List.filter_cons, h1, h2]
      simp
      exact ih store

/-- C7: with permission granted and a fixed parseable expiration date, the
credential-expiry notification fires on a pass exactly when the ceiling
day count satisfies `0 ≤ daysUntil ≤ 7` and the dedup key scoped to that
exact expiration string is unset; firing sets that key, and across any
sequence of passes (with arbitrary, possibly changing expiration values)
at most one pass ever fires for any given expiration value, while a
different expiration value is governed by its own key. -/
theorem tokenExpiry_dedup (parse : String → Option Int) (e : String)
    (expiryMs : Int) (he : e ≠ "") (hp : parse e = some expiryMs) :
    (∀ (nowMs : Int) (store : Ledger),
      ((sendTokenExpiryNotification parse e nowMs store).1 = true ↔
        (0 ≤ daysUntil expiryMs nowMs ∧ daysUntil expiryMs nowMs ≤ 7 ∧
         keyUnset store ("canvasTokenExpiryNotified:" ++ e) = true)) ∧
      ((sendTokenExpiryNotification parse e nowMs store).1 = true →
        (sendTokenExpiryNotification parse e nowMs store).2 =
          objSet store ("canvasTokenExpiryNotified:" ++ e) "true")) ∧
    (∀ (passes : List (String × Int)) (store : Ledger),
      ((runNotificationPasses parse passes store).filter
          (fun r => decide (r.1 = e) && r.2)).length ≤ 1) := by
  refine ⟨fun nowMs store => ⟨?_, ?_⟩, fun passes store => ?_⟩
  · exact sendTokenExpiry_fired_iff parse e expiryMs he hp nowMs store
  · intro hf
    rcases sendTokenExpiry_cases parse e nowMs store with ⟨_, h2, _⟩ | ⟨h1, _⟩
    · exact h2
    · rw [hf] at h1
      exact absurd h1 (by decide)
  · exact runPasses_count_le_one parse e passes store

/-- A concrete parse capability mapping one date string to the epoch. -/
def parseFixedDate : String → Option Int := fun s =>
  if s = "2026-01-01" then some 0 else none

/-- Witness for C7: with the expiration parsing to the epoch instant and
`now` at the epoch, the day count is 0 and the empty store has the dedup
key unset, so the notification fires. -/
theorem tokenExpiry_dedup_witness :
    (sendTokenExpiryNotification parseFixedDate "2026-01-01" 0 []).1 = true :=
  (((tokenExpiry_dedup parseFixedDate "2026-01-01" 0 (by decide)
      (by simp [parseFixedDate])).1 0 []).1).mpr (by decide)

theorem ExtInt.le_refl (a : ExtInt) : ExtInt.le a a = true := by
  cases a <;> simp [ExtInt.le]

theorem ExtInt.le_trans (a b c : ExtInt) (hab : ExtInt.le a b = true)
    (hbc : ExtInt.le b c = true) : ExtInt.le a c = true := by
  cases a <;> cases b <;> cases c <;> simp_all [ExtInt.le] <;> omega

theorem ExtInt.le_total (a b : ExtInt) :
    (ExtInt.le a b || ExtInt.le b a) = true := by
  cases a <;> cases b <;> simp [ExtInt.le] <;> omega

theorem strLe_trans (a b c : String) (hab : decide (a ≤ b) = true)
    (hbc : decide (b ≤ c) = true) : decide (a ≤ c) = true := by
  simp only [decide_eq_true_eq] at hab hbc ⊢
  exact le_trans hab hbc

theorem strLe_total (a b : String) :
    (decide (a ≤ b) || decide (b ≤ a)) = true := by
  rcases le_total a b with h | h <;> simp [h]

theorem mergeSort_filter_stable {α β : Type} [DecidableEq β]
    (le : α → α → Bool)
    (htrans : ∀ a b c, le a b = true → le b c = true → le a c = true)
    (htotal : ∀ a b, (le a b || le b a) = true)
    (key : α → β) (hkey : ∀ a b, key a = key b → le a b = true)
    (l : List α) (v : β) :
    (l.mergeSort le).filter (fun a => decide (key a = v)) =
      l.filter (fun a => decide (key a = v)) := by
  have hmem : ∀ a ∈ l.filter (fun a => decide (key a = v)), key a = v := by
    intro a ha
    simpa using List.of_mem_filter ha
  have hpair : (l.filter (fun a => decide (key a = v))).Pairwise
      (fun a b => le a b = true) := by
    apply List.pairwise_of_forall_mem_list
    intro a ha b hb
    exact hkey a b ((hmem a ha).trans (hmem b hb).symm)
  have h1 : (l.filter (fun a => decide (key a = v))).Sublist
      (l.mergeSort le) :=
    List.sublist_mergeSort htrans htotal hpair (List.filter_sublist l)
  have h2 := h1.filter (fun a => decide (key a = v))
  have h3 : (l.filter (fun a => decide (key a = v))).filter
      (fun a => decide (key a = v)) =
      l.filter (fun a => decide (key a = v)) := by
    rw [List.filter_filter]
    simp
  rw [h3] at h2
  have hlen : ((l.mergeSort le).filter (fun a => decide (key a = v))).length =
      (l.filter (fun a => decide (key a = v))).length :=
    ((List.mergeSort_perm l le).filter (fun a => decide (key a = v))).length_eq
  exact (h2.eq_of_length hlen.symm).symm

/-- C8: `sortAssignments` is, for each key, a permutation of its input,
sorted by the stated order — ascending (respectively descending) due
instant with missing or unparseable dates mapped to +Infinity
(respectively -Infinity) so they are placed last in both directions, and
lexicographically ascending `course` or `status` — and it is stable: for
every key value, the items carrying that value appear in the output in
their original input order. -/
theorem sortAssignments_stable_sorted (l : List AssignmentView) :
    ((sortAssignments l SortKey.dueAsc).Perm l ∧
      (sortAssignments l SortKey.dueAsc).Pairwise
        (fun a b => ExtInt.le (dateValue a true) (dateValue b true) = true) ∧
      ∀ v : ExtInt,
        (sortAssignments l SortKey.dueAsc).filter
            (fun a => decide (dateValue a true = v)) =
          l.filter (fun a => decide (dateValue a true = v))) ∧
    ((sortAssignments l SortKey.dueDesc).Perm l ∧
      (sortAssignments l SortKey.dueDesc).Pairwise
        (fun a b => ExtInt.le (dateValue b false) (dateValue a false) = true) ∧
      ∀ v : ExtInt,
        (sortAssignments l SortKey.dueDesc).filter
            (fun a => decide (dateValue a false = v)) =
          l.filter (fun a => decide (dateValue a false = v))) ∧
    ((sortAssignments l SortKey.course).Perm l ∧
      (sortAssignments l SortKey.course).Pairwise
        (fun a b => a.course ≤ b.course) ∧
      ∀ v : String,
        (sortAssignments l SortKey.course).filter
            (fun a => decide (a.course = v)) =
          l.filter (fun a => decide (a.course = v))) ∧
    ((sortAssignments l SortKey.status).Perm l ∧
      (sortAssignments l SortKey.status).Pairwise
        (fun a b => a.status ≤ b.status) ∧
      ∀ v : String,
        (sortAssignments l SortKey.status).filter
            (fun a => decide (a.status = v)) =
          l.filter (fun a => decide (a.status = v))) := by
  have htransAsc : ∀ a b c : AssignmentView,
      ExtInt.le (dateValue a true) (dateValue b true) = true →
      ExtInt.le (dateValue b true) (dateValue c true) = true →
      ExtInt.le (dateValue a true) (dateValue c true) = true :=
    fun a b c hab hbc => ExtInt.le_trans _ _ _ hab hbc
  have htotalAsc : ∀ a b : AssignmentView,
      (ExtInt.le (dateValue a true) (dateValue b true) ||
        ExtInt.le (dateValue b true) (dateValue a true)) = true :=
    fun a b => ExtInt.le_total _ _
  have hkeyAsc : ∀ a b : AssignmentView, dateValue a true = dateValue b true →
      ExtInt.le (dateValue a true) (dateValue b true) = true := by
    intro a b h
    rw [h]
    exact ExtInt.le_refl _
  have htransDesc : ∀ a b c : AssignmentView,
      ExtInt.le (dateValue b false) (dateValue a false) = true →
      ExtInt.le (dateValue c false) (dateValue b false) = true →
      ExtInt.le (dateValue c false) (dateValue a false) = true :=
    fun a b c hab hbc => ExtInt.le_trans _ _ _ hbc hab
  have htotalDesc : ∀ a b : AssignmentView,
      (ExtInt.le (dateValue b false) (dateValue a false) ||
        ExtInt.le (dateValue a false) (dateValue b false)) = true :=
    fun a b => ExtInt.le_total _ _
  have hkeyDesc : ∀ a b : AssignmentView,
      dateValue a false = dateValue b false →
      ExtInt.le (dateValue b false) (dateValue a false) = true := by
    intro a b h
    rw [h]
    exact ExtInt.le_refl _
  have htransCourse : ∀ a b c : AssignmentView,
      decide (a.course ≤ b.course) = true →
      decide (b.course ≤ c.course) = true →
      decide (a.course ≤ c.course) = true :=
    fun a b c hab hbc => strLe_trans _ _ _ hab hbc
  have htotalCourse : ∀ a b : AssignmentView,
      (decide (a.course ≤ b.course) || decide (b.course ≤ a.course)) = true :=
    fun a b => strLe_total _ _
  have hkeyCourse : ∀ a b : AssignmentView, a.course = b.course →
      decide (a.course ≤ b.course) = true := by
    intro a b h
    simp [h]
  have htransStatus : ∀ a b c : AssignmentView,
      decide (a.status ≤ b.status) = true →
      decide (b.status ≤ c.status) = true →
      decide (a.status ≤ c.status) = true :=
    fun a b c hab hbc => strLe_trans _ _ _ hab hbc
  have htotalStatus : ∀ a b : AssignmentView,
      (decide (a.status ≤ b.status) || decide (b.status ≤ a.status)) = true :=
    fun a b => strLe_total _ _
  have hkeyStatus : ∀ a b : AssignmentView, a.status = b.status →
      decide (a.status ≤ b.status) = true := by
    intro a b h
    simp [h]
  refine ⟨⟨?_, ?_, ?_⟩, ⟨?_, ?_, ?_⟩, ⟨?_, ?_, ?_⟩, ⟨?_, ?_, ?_⟩⟩
  · exact List.mergeSort_perm l _
  · exact List.sorted_mergeSort htransAsc htotalAsc l
  · intro v
    exact mergeSort_filter_stable _ htransAsc htotalAsc
      (fun a => dateValue a true) hkeyAsc l v
  · exact List.mergeSort_perm l _
  · exact List.sorted_mergeSort htransDesc htotalDesc l
  · intro v
    exact mergeSort_filter_stable _ htransDesc htotalDesc
      (fun a => dateValue a false) hkeyDesc l v
  · exact List.mergeSort_perm l _
  · exact (List.sorted_mergeSort htransCourse htotalCourse l).imp
      (fun h => of_decide_eq_true h)
  · intro v
    exact mergeSort_filter_stable _ htransCourse htotalCourse
      (fun a => a.course) hkeyCourse l v
  · exact List.mergeSort_perm l _
  · exact (List.sorted_mergeSort htransStatus htotalStatus l).imp
      (fun h => of_decide_eq_true h)
  · intro v
    exact mergeSort_filter_stable _ htransStatus htotalStatus
      (fun a => a.status) hkeyStatus l v
